import Mathlib

/-!
Verification development for the Kaleidoscope-style front end in
`my-lang.cpp` (lexer, recursive-descent parser with precedence climbing,
AST, LLVM-backed lowering, top-level driver loop).  The file embeds the
C++ source shallowly: the global character/token cursors become explicit
state (an `Option Char` carry-over plus the remaining input list), the
fallible parse functions return `Except` paired with the remaining token
stream, and the LLVM module/IR effects are modelled as a symbolic value
language and an association-list module.
-/

namespace MyLang

/-! ## Lexer (`gettok`, my-lang.cpp lines 36-94)

Tokens: negative enum values for eof / `def` / `extern` / identifier /
number, any other character is returned as itself.  The identifier text
(`IdentifierStr`) and the literal text that `strtod` receives (`NumStr`)
are carried on the token instead of living in globals; `NumVal` is
`strtod(NumStr)`, a function of the carried string, so token-sequence
equalities proved here imply the corresponding `NumVal` equalities. -/

inductive Tok where
  | eof : Tok
  | kwDef : Tok
  | kwExt : Tok
  | ident (s : String) : Tok
  | number (numStr : String) : Tok
  | char (c : Char) : Tok
deriving DecidableEq, Repr

/-- C `isspace` on the ASCII characters the lexer can see. -/
def isspace (c : Char) : Bool :=
  c = ' ' || c = '\t' || c = '\n' || c = '\r' || c = '\x0b' || c = '\x0c'

/-- C `isalpha` (ASCII). -/
def isalpha (c : Char) : Bool :=
  ('a' ≤ c && c ≤ 'z') || ('A' ≤ c && c ≤ 'Z')

/-- C `isdigit` (ASCII). -/
def isdigit (c : Char) : Bool := '0' ≤ c && c ≤ '9'

/-- C `isalnum` (ASCII). -/
def isalnum (c : Char) : Bool := isalpha c || isdigit c

/-- `while (isspace(LastChar)) LastChar = getchar();`
The carry-over `LastChar` is an `Option Char` (`none` = EOF); `getchar`
pops the input list (EOF when it is empty). -/
def skipWS : Option Char → List Char → Option Char × List Char
  | none, input => (none, input)
  | some c, input =>
    if isspace c then
      match input with
      | [] => (none, [])
      | d :: rest => skipWS (some d) rest
    else (some c, input)

/-- The identifier loop: `while (isalnum((LastChar = getchar()))) IdentifierStr += LastChar;`
`acc` starts as the one-character string of the alphabetic start character. -/
def readIdent (acc : String) : List Char → String × Option Char × List Char
  | [] => (acc, none, [])
  | c :: rest =>
    if isalnum c then readIdent (acc.push c) rest else (acc, some c, rest)

/-- The number loop:
`do { NumStr += LastChar; LastChar = getchar(); } while (isdigit(LastChar) || LastChar == '.');`
`c` is the current `LastChar`, already known to be a digit or `'.'`. -/
def readNum (acc : String) (c : Char) : List Char → String × Option Char × List Char
  | [] => (acc.push c, none, [])
  | d :: rest =>
    if isdigit d || d = '.' then readNum (acc.push c) d rest
    else (acc.push c, some d, rest)

/-- The comment loop:
`do LastChar = getchar(); while (LastChar != EOF && LastChar != '\n' && LastChar != '\r');`
Returns the terminating character (newline kept in `LastChar`) or EOF. -/
def skipComment : List Char → Option Char × List Char
  | [] => (none, [])
  | c :: rest => if c = '\n' || c = '\r' then (some c, rest) else skipComment rest

/-- `gettok` (lines 51-94): skip whitespace, then lex an identifier or
keyword, a number, a comment (recursing for the next real token), EOF,
or a raw character.  The fuel only bounds the chain of comment-skipping
recursions; each such recursion consumes at least one input character,
so `input.length + 1` fuel always suffices (`gettokAux_fuel_irrel`). -/
def gettokAux : Nat → Option Char → List Char → Tok × Option Char × List Char
  | 0, _, input => (.eof, none, input)
  | f + 1, lc, input =>
    match skipWS lc input with
    | (none, rest) => (.eof, none, rest)
    | (some c, rest) =>
      if isalpha c then
        let r := readIdent (String.singleton c) rest
        if r.1 = "def" then (.kwDef, r.2.1, r.2.2)
        else if r.1 = "extern" then (.kwExt, r.2.1, r.2.2)
        else (.ident r.1, r.2.1, r.2.2)
      else if isdigit c || c = '.' then
        let r := readNum "" c rest
        (.number r.1, r.2.1, r.2.2)
      else if c = '#' then
        match skipComment rest with
        | (none, rest') => (.eof, none, rest')
        | (some c', rest') => gettokAux f (some c') rest'
      else
        match rest with
        | [] => (.char c, none, [])
        | d :: rest' => (.char c, some d, rest')

def gettok (lc : Option Char) (input : List Char) : Tok × Option Char × List Char :=
  gettokAux (input.length + 1) lc input

/-- The token sequence the lexer produces, up to the eof token (fuelled:
one unit of fuel per emitted token; both sides of any equality proved
below receive the same fuel). -/
def tokensF : Nat → Option Char → List Char → List Tok
  | 0, _, _ => []
  | f + 1, lc, input =>
    match gettok lc input with
    | (.eof, _, _) => []
    | (t, lc', input') => t :: tokensF f lc' input'

/-- Tokenize a string from the lexer's initial state (`LastChar = ' '`),
with enough fuel for every token of the input. -/
def lex (s : String) : List Tok :=
  tokensF (s.length + 2) (some ' ') s.toList

/-! ## AST (my-lang.cpp lines 115-284)

`NumberExprAST` carries the literal text the number token carried (the
C++ field is `double Val = NumVal`, a function of that text);
`BinaryExprAST` carries `char Op`; `CallExprAST` a callee and argument
list. -/

inductive Expr where
  | num (valStr : String) : Expr
  | var (name : String) : Expr
  | bin (op : Char) (lhs rhs : Expr) : Expr
  | call (callee : String) (args : List Expr) : Expr

structure PrototypeAST where
  name : String
  args : List String
deriving DecidableEq

structure FunctionAST where
  proto : PrototypeAST
  body : Expr

/-! ## Parser, LLVM-backed version (my-lang.cpp lines 286-481)

The global cursor `CurTok` plus the rest of the lexer's output is a
`List Tok`: `CurTok` is the head (`eof` once the list is empty, matching
`gettok` returning `tok_eof` forever at end of input), `getNextToken` is
`tail`.  Each parse function returns `Except String Expr` — `.error`
models the `nullptr` failure marker with the `LogError` message — paired
with the stream left behind.  The mutual recursion is fuelled; fuel is
spent one unit per call, and a fuel-out is reported as an `.error`, so
every theorem below either holds for all fuels or quantifies it. -/

abbrev PResult := Except String Expr × List Tok

/-- `CurTok` for a stream: the head, or `tok_eof` past the end. -/
def cur (s : List Tok) : Tok := s.headD .eof

/-- `getNextToken()`. -/
def adv (s : List Tok) : List Tok := s.tail

/-- `GetTokPrecedence` (lines 372-387): `< >` 10, `+ -` 20, `* /` 40,
anything else (including the negative keyword/identifier/number/eof
codes) the sentinel `-1`. -/
def GetTokPrecedence (t : Tok) : Int :=
  match t with
  | .char c =>
    if c = '<' ∨ c = '>' then 10
    else if c = '+' ∨ c = '-' then 20
    else if c = '*' ∨ c = '/' then 40
    else -1
  | _ => -1

/-- `int BinOp = CurTok;` stored as `char Op` in `BinaryExprAST`.  Only
reached for tokens of precedence ≥ 0, which are single-character
operator tokens. -/
def tokChar : Tok → Char
  | .char c => c
  | _ => '?'

mutual

/-- `ParseExpression` (lines 421-428). -/
def ParseExpression : Nat → List Tok → PResult
  | 0, s => (.error "fuel", s)
  | f + 1, s =>
    match ParsePrimary f s with
    | (.ok lhs, s1) => ParseBinOpRHS f 0 lhs s1
    | (.error e, s1) => (.error e, s1)

/-- `ParsePrimary` (lines 359-370); the number case inlines
`ParseNumberExpr` (lines 301-305). -/
def ParsePrimary : Nat → List Tok → PResult
  | 0, s => (.error "fuel", s)
  | f + 1, s =>
    match cur s with
    | .ident name => ParseIdentifierOrCallExpr f name s
    | .number v => (.ok (.num v), adv s)
    | t =>
      if t = .char '(' then ParseParenExpr f s
      else (.error "Unknown token when expecting an expression", s)

/-- `ParseParenExpr` (lines 307-320); entered with `CurTok = '('`. -/
def ParseParenExpr : Nat → List Tok → PResult
  | 0, s => (.error "fuel", s)
  | f + 1, s =>
    match ParseExpression f (adv s) with
    | (.ok v, s1) =>
      if cur s1 = .char ')' then (.ok v, adv s1)
      else (.error "Expecting \x27)\x27", s1)
    | (.error e, s1) => (.error e, s1)

/-- `ParseIdentifierOrCallExpr` (lines 322-357); entered with
`CurTok = tok_identifier` and `IdentifierStr = idName`. -/
def ParseIdentifierOrCallExpr : Nat → String → List Tok → PResult
  | 0, _, s => (.error "fuel", s)
  | f + 1, idName, s =>
    let s1 := adv s
    if cur s1 = .char '(' then ParseCallArgs f idName [] (adv s1)
    else (.ok (.var idName), s1)

/-- The argument-list `while (true)` loop inside
`ParseIdentifierOrCallExpr` (lines 331-352).  The first argument is
parsed unconditionally; a failed argument reports `"Argument is null"`
(the returned failure marker's message; the child's message was already
logged). -/
def ParseCallArgs : Nat → String → List Expr → List Tok → PResult
  | 0, _, _, s => (.error "fuel", s)
  | f + 1, callee, acc, s =>
    match ParseExpression f s with
    | (.ok arg, s1) =>
      if cur s1 = .char ')' then (.ok (.call callee (acc ++ [arg])), adv s1)
      else if cur s1 = .char ',' then ParseCallArgs f callee (acc ++ [arg]) (adv s1)
      else (.error "Expected \x27)\x27 or \x27,\x27 in argument list", s1)
    | (.error _, s1) => (.error "Argument is null", s1)

/-- `ParseBinOpRHS` (lines 389-419), the precedence climber of the
LLVM-backed version: after the optional recursive climb the folded
right-hand side is always combined into `LHS`, and the `while (true)`
loop continues as a tail call at the same `ExprPrec`. -/
def ParseBinOpRHS : Nat → Int → Expr → List Tok → PResult
  | 0, _, _, s => (.error "fuel", s)
  | f + 1, exprPrec, lhs, s =>
    let tokPrec := GetTokPrecedence (cur s)
    if tokPrec < exprPrec then (.ok lhs, s)
    else
      let binOp := tokChar (cur s)
      match ParsePrimary f (adv s) with
      | (.ok rhs, s2) =>
        let nextPrec := GetTokPrecedence (cur s2)
        if tokPrec < nextPrec then
          match ParseBinOpRHS f (tokPrec + 1) rhs s2 with
          | (.ok rhs', s3) => ParseBinOpRHS f exprPrec (.bin binOp lhs rhs') s3
          | (.error e, s3) => (.error e, s3)
        else ParseBinOpRHS f exprPrec (.bin binOp lhs rhs) s2
      | (.error e, s2) => (.error e, s2)

end

/-- The argument-name loop of `ParsePrototype` (lines 442-443):
`while (getNextToken() == tok_identifier) ArgNames.push_back(IdentifierStr);`
Each iteration advances first, then checks the new `CurTok`. -/
def readProtoArgs (acc : List String) : List Tok → List String × List Tok
  | [] => (acc, [])
  | _ :: rest =>
    match cur rest with
    | .ident a => readProtoArgs (acc ++ [a]) rest
    | _ => (acc, rest)

/-- `ParsePrototype` (lines 430-449). -/
def ParsePrototype (s : List Tok) : Except String PrototypeAST × List Tok :=
  match cur s with
  | .ident fnName =>
    let s1 := adv s
    if cur s1 = .char '(' then
      let r := readProtoArgs [] s1
      if cur r.2 = .char ')' then (.ok ⟨fnName, r.1⟩, adv r.2)
      else (.error "Expected \x27)\x27 in prototype", r.2)
    else (.error "Expected \x27(\x27 in prototype", s1)
  | _ => (.error "Expected function name in prototyp", s)

/-- `ParseDefinition` (lines 451-465); entered with `CurTok = tok_def`. -/
def ParseDefinition (f : Nat) (s : List Tok) : Except String FunctionAST × List Tok :=
  match ParsePrototype (adv s) with
  | (.ok proto, s1) =>
    match ParseExpression f s1 with
    | (.ok e, s2) => (.ok ⟨proto, e⟩, s2)
    | (.error er, s2) => (.error er, s2)
  | (.error er, s1) => (.error er, s1)

/-- `ParseExtern` (lines 467-470); entered with `CurTok = tok_extern`. -/
def ParseExternProto (s : List Tok) : Except String PrototypeAST × List Tok :=
  ParsePrototype (adv s)

/-- `ParseTopLevelExpr` (lines 472-481): wraps a bare expression in an
anonymous `FunctionAST` whose prototype is `PrototypeAST("", {})`. -/
def ParseTopLevelExpr (f : Nat) (s : List Tok) : Except String FunctionAST × List Tok :=
  match ParseExpression f s with
  | (.ok e, s1) => (.ok ⟨⟨"", []⟩, e⟩, s1)
  | (.error er, s1) => (.error er, s1)

/-! ## Parser, parse-only version (my-lang.cpp lines 734-935)

The second copy of the parser later in the source.  Every function is
textually identical to the LLVM-backed one except `ParseBinOpRHS`
(lines 841-873), where the fold `LHS = BinaryExprAST(BinOp, LHS, RHS)`
sits in the `else` of `if (TokPrec < NextPrec)`: after a successful
recursive climb the combined right-hand side is assigned to the local
`RHS` and then discarded when the loop continues.  The family is
duplicated because the mutual call graph runs through the differing
climber. -/

mutual

def ParseExpression2 : Nat → List Tok → PResult
  | 0, s => (.error "fuel", s)
  | f + 1, s =>
    match ParsePrimary2 f s with
    | (.ok lhs, s1) => ParseBinOpRHS2 f 0 lhs s1
    | (.error e, s1) => (.error e, s1)

def ParsePrimary2 : Nat → List Tok → PResult
  | 0, s => (.error "fuel", s)
  | f + 1, s =>
    match cur s with
    | .ident name => ParseIdentifierOrCallExpr2 f name s
    | .number v => (.ok (.num v), adv s)
    | t =>
      if t = .char '(' then ParseParenExpr2 f s
      else (.error "Unknown token when expecting an expression", s)

def ParseParenExpr2 : Nat → List Tok → PResult
  | 0, s => (.error "fuel", s)
  | f + 1, s =>
    match ParseExpression2 f (adv s) with
    | (.ok v, s1) =>
      if cur s1 = .char ')' then (.ok v, adv s1)
      else (.error "Expecting \x27)\x27", s1)
    | (.error e, s1) => (.error e, s1)

def ParseIdentifierOrCallExpr2 : Nat → String → List Tok → PResult
  | 0, _, s => (.error "fuel", s)
  | f + 1, idName, s =>
    let s1 := adv s
    if cur s1 = .char '(' then ParseCallArgs2 f idName [] (adv s1)
    else (.ok (.var idName), s1)

def ParseCallArgs2 : Nat → String → List Expr → List Tok → PResult
  | 0, _, _, s => (.error "fuel", s)
  | f + 1, callee, acc, s =>
    match ParseExpression2 f s with
    | (.ok arg, s1) =>
      if cur s1 = .char ')' then (.ok (.call callee (acc ++ [arg])), adv s1)
      else if cur s1 = .char ',' then ParseCallArgs2 f callee (acc ++ [arg]) (adv s1)
      else (.error "Expected \x27)\x27 or \x27,\x27 in argument list", s1)
    | (.error _, s1) => (.error "Argument is null", s1)

/-- `ParseBinOpRHS` of the parse-only version (lines 841-873): when
`TokPrec < NextPrec` the recursive climb's result is bound to `RHS` and
the loop continues with `LHS` unchanged — the fold only happens in the
`else` branch. -/
def ParseBinOpRHS2 : Nat → Int → Expr → List Tok → PResult
  | 0, _, _, s => (.error "fuel", s)
  | f + 1, exprPrec, lhs, s =>
    let tokPrec := GetTokPrecedence (cur s)
    if tokPrec < exprPrec then (.ok lhs, s)
    else
      let binOp := tokChar (cur s)
      match ParsePrimary2 f (adv s) with
      | (.ok rhs, s2) =>
        let nextPrec := GetTokPrecedence (cur s2)
        if tokPrec < nextPrec then
          match ParseBinOpRHS2 f (tokPrec + 1) rhs s2 with
          | (.ok _, s3) => ParseBinOpRHS2 f exprPrec lhs s3
          | (.error e, s3) => (.error e, s3)
        else ParseBinOpRHS2 f exprPrec (.bin binOp lhs rhs) s2
      | (.error e, s2) => (.error e, s2)

end

/-! ## Lowering (codegen) model (my-lang.cpp lines 96-284)

LLVM state is modelled symbolically: a `Val` is the IR value a `codegen`
call returns (a `ConstantFP`, a function argument, or an instruction
built by the `IRBuilder`), a function is its argument names plus an
optional body (LLVM's `Function::empty()` — no basic blocks — is
`body = none`), and `TheModule` is an association list from names to
functions, newest first.  `NamedValues` is an association list from
names to `Val`, newest binding first (`std::map::operator[]` assignment
overwrites, so the newest binding wins).  `codegen` failure
(`LogError` + `nullptr`) is `Except.error` with the logged message. -/

inductive Val where
  | constFP (valStr : String) : Val
  | arg (name : String) : Val
  | fadd (l r : Val) : Val
  | fsub (l r : Val) : Val
  | fmul (l r : Val) : Val
  | cmplt (l r : Val) : Val
  | callv (callee : String) (args : List Val) : Val

/-- A function in the module: argument names (set by
`PrototypeAST::codegen`) and an optional lowered body. -/
structure FuncIR where
  args : List String
  body : Option Val

abbrev Module := List (String × FuncIR)

/-- `TheModule->getFunction(name)`. -/
def getFunction (m : Module) (name : String) : Option FuncIR :=
  (m.find? (fun p => p.1 = name)).map Prod.snd

/-- Replace the entry for `name` (used when a body is attached to the
declaration the module already holds). -/
def moduleSet (m : Module) (name : String) (fn : FuncIR) : Module :=
  m.map (fun p => if p.1 = name then (p.1, fn) else p)

/-- `TheFunction->eraseFromParent()`. -/
def moduleErase (m : Module) (name : String) : Module :=
  m.filter (fun p => ¬ p.1 = name)

mutual

/-- `ExprAST::codegen` for each subclass (lines 127-206), against the
current module and the `NamedValues` scope. -/
def codegenExpr (m : Module) (nv : List (String × Val)) : Expr → Except String Val
  | .num v => .ok (.constFP v)
  | .var name =>
    -- `Value *V = NamedValues[Name]; if (!V) LogError("Unknown variable name");`
    match nv.lookup name with
    | some v => .ok v
    | none => .error "Unknown variable name"
  | .bin op l r =>
    -- `L = LHS->codegen(); R = RHS->codegen(); if (!L || !R) return nullptr;`
    match codegenExpr m nv l with
    | .error e => .error e
    | .ok lv =>
      match codegenExpr m nv r with
      | .error e => .error e
      | .ok rv =>
        if op = '+' then .ok (.fadd lv rv)
        else if op = '-' then .ok (.fsub lv rv)
        else if op = '*' then .ok (.fmul lv rv)
        else if op = '<' then .ok (.cmplt lv rv)  -- FCmpULT then UIToFP
        else .error "invalid binary operator"
  | .call callee args =>
    match getFunction m callee with
    | none => .error "Unknown function referenced"
    | some f =>
      if f.args.length ≠ args.length then .error "Incorrect # of arguments"
      else
        match codegenArgs m nv args with
        | .ok avs => .ok (.callv callee avs)
        | .error e => .error e

/-- The argument loop of `CallExprAST::codegen` (lines 199-203): lower
arguments left to right, aborting on the first failure. -/
def codegenArgs (m : Module) (nv : List (String × Val)) : List Expr → Except String (List Val)
  | [] => .ok []
  | e :: es =>
    match codegenExpr m nv e with
    | .ok v =>
      match codegenArgs m nv es with
      | .ok vs => .ok (v :: vs)
      | .error er => .error er
    | .error er => .error er

end

/-- `PrototypeAST::codegen` (lines 218-229): create the function with
its argument names.  In the modelled call sites the name is not yet
present in the module. -/
def protoCodegen (m : Module) (p : PrototypeAST) : FuncIR × Module :=
  let f : FuncIR := ⟨p.args, none⟩
  (f, (p.name, f) :: m)

/-- `NamedValues.clear()` followed by
`for (auto &Arg : TheFunction->args()) NamedValues[Arg.getName()] = &Arg;`
(lines 261-264).  Later assignments overwrite, so the newest binding is
first. -/
def functionScope (args : List String) : List (String × Val) :=
  args.foldl (fun nv a => (a, .arg a) :: nv) []

/-- `FunctionAST::codegen` (lines 241-284).  Takes the incoming
`NamedValues` state `nv0` and returns (result, module, `NamedValues`
afterwards).  Notable source behaviors kept: the scope is rebuilt from
the argument names of the function object found in the module (not from
the new prototype); a redefinition error leaves module and scope
untouched; a failed body erases the function (even a pre-existing
declaration). -/
def functionCodegen (m : Module) (nv0 : List (String × Val)) (fn : FunctionAST) :
    Except String FuncIR × Module × List (String × Val) :=
  let r :=
    match getFunction m fn.proto.name with
    | some f => (f, m)
    | none => protoCodegen m fn.proto
  let theFn := r.1
  let m1 := r.2
  if theFn.body.isSome then (.error "Function cannot be redefined", m1, nv0)
  else
    let nv := functionScope theFn.args
    match codegenExpr m1 nv fn.body with
    | .ok v =>
      let newFn : FuncIR := ⟨theFn.args, some v⟩
      (.ok newFn, moduleSet m1 fn.proto.name newFn, nv)
    | .error e => (.error e, moduleErase m1 fn.proto.name, nv)

/-! ## Top-level driver (my-lang.cpp lines 508-574)

The handlers' codegen/JIT calls only affect printing and module state,
never the token stream or the control flow of `MainLoop`; the driver is
therefore modelled at the token level.  The `getNextToken()` in the
`else` branch of each handler ("Skip token for error recovery") is
`adv`.  `MainLoopT` carries loop fuel (one unit per unit handled) and
the parser fuel handed to each parse call. -/

/-- `HandleDefinition` (lines 508-519), token effect. -/
def HandleDefinitionT (pf : Nat) (s : List Tok) : List Tok :=
  match ParseDefinition pf s with
  | (.ok _, s1) => s1
  | (.error _, s1) => adv s1

/-- `HandleExtern` (lines 521-532), token effect. -/
def HandleExternT (s : List Tok) : List Tok :=
  match ParseExternProto s with
  | (.ok _, s1) => s1
  | (.error _, s1) => adv s1

/-- `HandleTopLevelExpression` (lines 534-551), token effect. -/
def HandleTopLevelExpressionT (pf : Nat) (s : List Tok) : List Tok :=
  match ParseTopLevelExpr pf s with
  | (.ok _, s1) => s1
  | (.error _, s1) => adv s1

/-- `MainLoop` (lines 554-574).  `none` means the loop fuel ran out;
`some s'` means the `case tok_eof: return;` exit was taken with the
stream at `s'`. -/
def MainLoopT : Nat → Nat → List Tok → Option (List Tok)
  | 0, _, _ => none
  | lf + 1, pf, s =>
    match cur s with
    | .eof => some s
    | .kwDef => MainLoopT lf pf (HandleDefinitionT pf s)
    | .kwExt => MainLoopT lf pf (HandleExternT s)
    | t =>
      if t = .char ';' then MainLoopT lf pf (adv s)
      else MainLoopT lf pf (HandleTopLevelExpressionT pf s)

/-- Statement helper: the token stream `OP n₁ OP n₂ …` continuing a
binary-operator chain (used to state precedence-climbing properties). -/
def chainToks : List (Char × String) → List Tok
  | [] => []
  | p :: rest => .char p.1 :: .number p.2 :: chainToks rest

/-! ## Lexer evaluation facts and totality lemmas -/

theorem skipWS_length_le (lc : Option Char) (input : List Char) :
    (skipWS lc input).2.length ≤ input.length := by
  induction input generalizing lc with
  | nil =>
    cases lc with
    | none => simp [skipWS]
    | some c =>
      by_cases h : isspace c = true <;> simp [skipWS, h]
  | cons d rest ih =>
    cases lc with
    | none => simp [skipWS]
    | some c =>
      by_cases h : isspace c = true
      · simp only [skipWS, h, if_true]
        exact Nat.le_trans (ih (some d)) (Nat.le_succ _)
      · simp [skipWS, h]

theorem skipComment_some_length {input rest : List Char} {c : Char}
    (h : skipComment input = (some c, rest)) : rest.length < input.length := by
  induction input generalizing rest with
  | nil => simp [skipComment] at h
  | cons d tl ih =>
    by_cases hd : (d = '\n' || d = '\r') = true
    · simp only [skipComment, hd, if_true, Prod.mk.injEq] at h
      simp [← h.2]
    · simp only [skipComment, hd, if_false] at h
      exact Nat.lt_trans (ih h) (Nat.lt_succ_self _)

theorem gettokAux_fuel_irrel :
    ∀ (f g : Nat) (lc : Option Char) (input : List Char),
      input.length < f → input.length < g →
      gettokAux f lc input = gettokAux g lc input := by
  intro f
  induction f with
  | zero => intro g lc input hf; omega
  | succ f ih =>
    intro g lc input hf hg
    cases g with
    | zero => omega
    | succ g =>
      simp only [gettokAux]
      rcases hws : skipWS lc input with ⟨olc, rest⟩
      have hrest : rest.length ≤ input.length := by
        have := skipWS_length_le lc input
        rw [hws] at this
        exact this
      cases olc with
      | none => rfl
      | some c =>
        by_cases ha : isalpha c = true
        · simp [ha]
        · by_cases hn : (isdigit c || c = '.') = true
          · simp [ha, hn]
          · by_cases hc : c = '#'
            · simp only [ha, hn, hc, if_false, if_true]
              rcases hsc : skipComment rest with ⟨olc', rest'⟩
              cases olc' with
              | none => rfl
              | some c' =>
                have := skipComment_some_length hsc
                exact ih g (some c') rest' (by omega) (by omega)
            · simp [ha, hn, hc]

theorem gettok_eq_aux (f : Nat) (lc : Option Char) (input : List Char)
    (h : input.length < f) : gettok lc input = gettokAux f lc input :=
  gettokAux_fuel_irrel _ f lc input (Nat.lt_succ_self _) h

example : lex "1+1" = [.number "1", .char '+', .number "1"] := by decide
example : lex "def foo(a b) a+b" =
    [.kwDef, .ident "foo", .char '(', .ident "a", .ident "b", .char ')',
     .ident "a", .char '+', .ident "b"] := by decide

example : ParseExpression 20 (lex "1+2*3") =
    (.ok (.bin '+' (.num "1") (.bin '*' (.num "2") (.num "3"))), []) := rfl
example : ParseExpression 20 (lex "1*2+3*4") =
    (.ok (.bin '+' (.bin '*' (.num "1") (.num "2"))
                   (.bin '*' (.num "3") (.num "4"))), []) := rfl
example : ParseExpression 20 (lex "1-2-3") =
    (.ok (.bin '-' (.bin '-' (.num "1") (.num "2")) (.num "3")), []) := rfl
example : ParseExpression 20 (lex "f()") =
    (.error "Argument is null", [.char ')']) := rfl
example : ParseExpression 20 (lex "f(1)") =
    (.ok (.call "f" [.num "1"]), []) := rfl

/-! ## Stream-consumption lemmas

Every parse function only ever advances the token cursor, and a
successful expression parse consumes at least one token.  These feed the
driver-progress argument for C6. -/

theorem adv_length_le (s : List Tok) : (adv s).length ≤ s.length := by
  cases s <;> simp [adv]

theorem adv_length_lt {s : List Tok} (h : s ≠ []) : (adv s).length < s.length := by
  cases s with
  | nil => exact absurd rfl h
  | cons a t => simp [adv]

theorem parse_consume_le : ∀ f : Nat,
    (∀ s, (ParseExpression f s).2.length ≤ s.length) ∧
    (∀ s, (ParsePrimary f s).2.length ≤ s.length) ∧
    (∀ s, (ParseParenExpr f s).2.length ≤ s.length) ∧
    (∀ n s, (ParseIdentifierOrCallExpr f n s).2.length ≤ s.length) ∧
    (∀ c a s, (ParseCallArgs f c a s).2.length ≤ s.length) ∧
    (∀ p l s, (ParseBinOpRHS f p l s).2.length ≤ s.length) := by
  intro f
  induction f with
  | zero =>
    refine ⟨?_, ?_, ?_, ?_, ?_, ?_⟩ <;> intros <;>
      simp [ParseExpression, ParsePrimary, ParseParenExpr,
            ParseIdentifierOrCallExpr, ParseCallArgs, ParseBinOpRHS]
  | succ f ih =>
    obtain ⟨ihE, ihP, ihPar, ihI, ihC, ihB⟩ := ih
    have hE : ∀ s, (ParseExpression (f + 1) s).2.length ≤ s.length := by
      intro s
      simp only [ParseExpression]
      rcases h : ParsePrimary f s with ⟨r, s1⟩
      have h1 : s1.length ≤ s.length := by have := ihP s; rw [h] at this; exact this
      cases r with
      | ok lhs => exact Nat.le_trans (ihB 0 lhs s1) h1
      | error e => simpa using h1
    have hP : ∀ s, (ParsePrimary (f + 1) s).2.length ≤ s.length := by
      intro s
      simp only [ParsePrimary]
      cases hc : cur s with
      | ident n => exact ihI n s
      | number v => simpa using adv_length_le s
      | eof => simp
      | kwDef => simp
      | kwExt => simp
      | char c =>
        by_cases h2 : Tok.char c = Tok.char '('
        · simpa [h2] using ihPar s
        · simp [h2]
    have hPar : ∀ s, (ParseParenExpr (f + 1) s).2.length ≤ s.length := by
      intro s
      simp only [ParseParenExpr]
      rcases h : ParseExpression f (adv s) with ⟨r, s1⟩
      have h1 : s1.length ≤ s.length := by
        have := ihE (adv s); rw [h] at this
        exact Nat.le_trans this (adv_length_le s)
      cases r with
      | ok v =>
        by_cases h2 : cur s1 = Tok.char ')'
        · simpa [h2] using Nat.le_trans (adv_length_le s1) h1
        · simpa [h2] using h1
      | error e => simpa using h1
    have hI : ∀ n s, (ParseIdentifierOrCallExpr (f + 1) n s).2.length ≤ s.length := by
      intro n s
      simp only [ParseIdentifierOrCallExpr]
      by_cases h2 : cur (adv s) = Tok.char '('
      · have := ihC n [] (adv (adv s))
        simp only [h2, if_pos]
        exact Nat.le_trans this (Nat.le_trans (adv_length_le _) (adv_length_le _))
      · simpa [h2] using adv_length_le s
    have hC : ∀ c a s, (ParseCallArgs (f + 1) c a s).2.length ≤ s.length := by
      intro c a s
      simp only [ParseCallArgs]
      rcases h : ParseExpression f s with ⟨r, s1⟩
      have h1 : s1.length ≤ s.length := by have := ihE s; rw [h] at this; exact this
      cases r with
      | ok arg =>
        by_cases h2 : cur s1 = Tok.char ')'
        · simpa [h2] using Nat.le_trans (adv_length_le s1) h1
        · by_cases h3 : cur s1 = Tok.char ','
          · have := ihC c (a ++ [arg]) (adv s1)
            simp only [h2, h3, if_neg, if_pos]
            exact Nat.le_trans this (Nat.le_trans (adv_length_le s1) h1)
          · simpa [h2, h3] using h1
      | error e => simpa using h1
    have hB : ∀ p l s, (ParseBinOpRHS (f + 1) p l s).2.length ≤ s.length := by
      intro p l s
      simp only [ParseBinOpRHS]
      by_cases h0 : GetTokPrecedence (cur s) < p
      · simp [h0]
      · simp only [h0, if_neg, if_false]
        rcases h : ParsePrimary f (adv s) with ⟨r, s2⟩
        have h1 : s2.length ≤ s.length := by
          have := ihP (adv s); rw [h] at this
          exact Nat.le_trans this (adv_length_le s)
        cases r with
        | ok rhs =>
          by_cases h2 : GetTokPrecedence (cur s) < GetTokPrecedence (cur s2)
          · simp only [h2, if_pos]
            rcases h3 : ParseBinOpRHS f (GetTokPrecedence (cur s) + 1) rhs s2 with ⟨r3, s3⟩
            have h4 : s3.length ≤ s2.length := by
              have := ihB (GetTokPrecedence (cur s) + 1) rhs s2; rw [h3] at this; exact this
            cases r3 with
            | ok rhs2 =>
              have := ihB p (Expr.bin (tokChar (cur s)) l rhs2) s3
              simpa using Nat.le_trans this (Nat.le_trans h4 h1)
            | error e => simpa using Nat.le_trans h4 h1
          · simp only [h2, if_neg, if_false]
            exact Nat.le_trans (ihB p (Expr.bin (tokChar (cur s)) l rhs) s2) h1
        | error e => simpa using h1
    exact ⟨hE, hP, hPar, hI, hC, hB⟩

theorem ParseExpression_consume_le (f : Nat) (s : List Tok) :
    (ParseExpression f s).2.length ≤ s.length := (parse_consume_le f).1 s

theorem ParseBinOpRHS_consume_le (f : Nat) (p : Int) (l : Expr) (s : List Tok) :
    (ParseBinOpRHS f p l s).2.length ≤ s.length := (parse_consume_le f).2.2.2.2.2 p l s

/-- A successful expression (or primary, or paren, or identifier/call)
parse consumes at least one token. -/
theorem parse_ok_progress : ∀ f : Nat,
    (∀ s r s1, ParseExpression f s = (.ok r, s1) → s1.length < s.length) ∧
    (∀ s r s1, ParsePrimary f s = (.ok r, s1) → s1.length < s.length) ∧
    (∀ s r s1, ParseParenExpr f s = (.ok r, s1) → s1.length < s.length) ∧
    (∀ n s r s1, ParseIdentifierOrCallExpr f n s = (.ok r, s1) →
      s1.length ≤ s.length - 1) := by
  intro f
  induction f with
  | zero =>
    refine ⟨?_, ?_, ?_, ?_⟩ <;> intros _ _ _ h <;>
      first
        | (simp [ParseExpression, ParsePrimary, ParseParenExpr] at h)
        | (intro h2; simp [ParseIdentifierOrCallExpr] at h2)
  | succ f ih =>
    obtain ⟨ihE, ihP, ihPar, ihI⟩ := ih
    have hE : ∀ s r s1, ParseExpression (f + 1) s = (.ok r, s1) →
        s1.length < s.length := by
      intro s r s1 h
      simp only [ParseExpression] at h
      rcases h2 : ParsePrimary f s with ⟨r2, sP⟩
      rw [h2] at h
      cases r2 with
      | ok lhs =>
        simp only at h
        have hP := ihP s lhs sP h2
        have hle : s1.length ≤ sP.length := by
          have := ParseBinOpRHS_consume_le f 0 lhs sP
          rw [h] at this
          exact this
        omega
      | error e => simp at h
    have hP : ∀ s r s1, ParsePrimary (f + 1) s = (.ok r, s1) →
        s1.length < s.length := by
      intro s r s1 h
      simp only [ParsePrimary] at h
      split at h
      case _ n heq =>
        have hne : s ≠ [] := by intro he; rw [he] at heq; simp [cur] at heq
        have h6 := ihI n s r s1 h
        have h7 : s.length ≠ 0 := fun he => hne (List.length_eq_zero.mp he)
        omega
      case _ v heq =>
        simp only [Prod.mk.injEq] at h
        have hne : s ≠ [] := by intro he; rw [he] at heq; simp [cur] at heq
        rw [← h.2]
        exact adv_length_lt hne
      case _ =>
        split at h
        · exact ihPar s r s1 h
        · simp at h
    have hPar : ∀ s r s1, ParseParenExpr (f + 1) s = (.ok r, s1) →
        s1.length < s.length := by
      intro s r s1 h
      simp only [ParseParenExpr] at h
      rcases h2 : ParseExpression f (adv s) with ⟨r2, s2⟩
      rw [h2] at h
      cases r2 with
      | ok v =>
        simp only at h
        split at h
        · simp only [Prod.mk.injEq] at h
          have hlt := ihE (adv s) v s2 h2
          have hle := adv_length_le s2
          have hle2 := adv_length_le s
          rw [← h.2]
          omega
        · simp at h
      | error e => simp at h
    have hI : ∀ n s r s1, ParseIdentifierOrCallExpr (f + 1) n s = (.ok r, s1) →
        s1.length ≤ s.length - 1 := by
      intro n s r s1 h
      simp only [ParseIdentifierOrCallExpr] at h
      by_cases h2 : cur (adv s) = Tok.char '('
      · rw [if_pos h2] at h
        have hle : s1.length ≤ (adv (adv s)).length := by
          have := (parse_consume_le f).2.2.2.2.1 n [] (adv (adv s))
          rw [h] at this
          exact this
        have h3 := adv_length_le (adv s)
        have h4 := adv_length_le s
        have h5 : (adv s).length = s.length - 1 := by
          cases s <;> simp [adv]
        omega
      · rw [if_neg h2] at h
        simp only [Prod.mk.injEq] at h
        have h5 : (adv s).length = s.length - 1 := by
          cases s <;> simp [adv]
        rw [← h.2]
        omega
    exact ⟨hE, hP, hPar, hI⟩

theorem ParseExpression_ok_progress (f : Nat) (s : List Tok) (r : Expr)
    (s1 : List Tok) (h : ParseExpression f s = (.ok r, s1)) :
    s1.length < s.length := (parse_ok_progress f).1 s r s1 h

theorem readProtoArgs_length_le (acc : List String) (s : List Tok) :
    (readProtoArgs acc s).2.length ≤ s.length := by
  induction s generalizing acc with
  | nil => simp [readProtoArgs]
  | cons a t ih =>
    simp only [readProtoArgs]
    split
    · exact Nat.le_trans (ih _) (Nat.le_succ _)
    · simp

theorem ParsePrototype_consume_le (s : List Tok) :
    (ParsePrototype s).2.length ≤ s.length := by
  simp only [ParsePrototype]
  split
  case _ fnName heq =>
    by_cases h1 : cur (adv s) = Tok.char '('
    · rw [if_pos h1]
      by_cases h2 : cur (readProtoArgs [] (adv s)).2 = Tok.char ')'
      · rw [if_pos h2]
        show (adv (readProtoArgs [] (adv s)).2).length ≤ s.length
        exact Nat.le_trans (adv_length_le _)
          (Nat.le_trans (readProtoArgs_length_le _ _) (adv_length_le s))
      · rw [if_neg h2]
        exact Nat.le_trans (readProtoArgs_length_le _ _) (adv_length_le s)
    · rw [if_neg h1]
      exact adv_length_le s
  case _ => exact Nat.le_refl _

theorem ParseDefinition_consume_le (f : Nat) (s : List Tok) :
    (ParseDefinition f s).2.length ≤ (adv s).length := by
  simp only [ParseDefinition]
  rcases h : ParsePrototype (adv s) with ⟨r, s1⟩
  have h1 : s1.length ≤ (adv s).length := by
    have := ParsePrototype_consume_le (adv s); rw [h] at this; exact this
  cases r with
  | ok proto =>
    rcases h2 : ParseExpression f s1 with ⟨r2, s2⟩
    have h3 : s2.length ≤ s1.length := by
      have := ParseExpression_consume_le f s1; rw [h2] at this; exact this
    cases r2 with
    | ok e => simp only [h2]; omega
    | error e => simp only [h2]; omega
  | error e => exact h1

theorem HandleDefinitionT_progress (pf : Nat) {s : List Tok} (h : s ≠ []) :
    (HandleDefinitionT pf s).length < s.length := by
  have hs : s.length ≠ 0 := fun he => h (List.length_eq_zero.mp he)
  have hlen : (adv s).length = s.length - 1 := by cases s <;> simp [adv]
  simp only [HandleDefinitionT]
  rcases hd : ParseDefinition pf s with ⟨r, s1⟩
  have h1 : s1.length ≤ (adv s).length := by
    have := ParseDefinition_consume_le pf s; rw [hd] at this; exact this
  cases r with
  | ok fn => show s1.length < s.length; omega
  | error e =>
    show (adv s1).length < s.length
    have h2 : (adv s1).length ≤ s1.length := adv_length_le s1
    omega

theorem HandleExternT_progress {s : List Tok} (h : s ≠ []) :
    (HandleExternT s).length < s.length := by
  have hs : s.length ≠ 0 := fun he => h (List.length_eq_zero.mp he)
  have hlen : (adv s).length = s.length - 1 := by cases s <;> simp [adv]
  simp only [HandleExternT, ParseExternProto]
  rcases hd : ParsePrototype (adv s) with ⟨r, s1⟩
  have h1 : s1.length ≤ (adv s).length := by
    have := ParsePrototype_consume_le (adv s); rw [hd] at this; exact this
  cases r with
  | ok p => show s1.length < s.length; omega
  | error e =>
    show (adv s1).length < s.length
    have h2 : (adv s1).length ≤ s1.length := adv_length_le s1
    omega

theorem HandleTopLevelExpressionT_progress (pf : Nat) {s : List Tok} (h : s ≠ []) :
    (HandleTopLevelExpressionT pf s).length < s.length := by
  have hs : s.length ≠ 0 := fun he => h (List.length_eq_zero.mp he)
  simp only [HandleTopLevelExpressionT, ParseTopLevelExpr]
  rcases he : ParseExpression pf s with ⟨re, se⟩
  have h1 : se.length ≤ s.length := by
    have := ParseExpression_consume_le pf s; rw [he] at this; exact this
  cases re with
  | ok e =>
    show se.length < s.length
    exact ParseExpression_ok_progress pf s e se he
  | error e =>
    show (adv se).length < s.length
    have h3 : (adv se).length = se.length - 1 := by cases se <;> simp [adv]
    omega

theorem MainLoopT_reaches_eof : ∀ lf pf s, s.length < lf →
    ∃ s', MainLoopT lf pf s = some s' ∧ cur s' = .eof := by
  intro lf
  induction lf with
  | zero => intro pf s h; omega
  | succ lf ih =>
    intro pf s h
    by_cases hnil : s = []
    · subst hnil
      exact ⟨[], rfl, rfl⟩
    · cases hc : cur s with
      | eof => exact ⟨s, by simp [MainLoopT, hc], hc⟩
      | kwDef =>
        simp only [MainLoopT, hc]
        have := HandleDefinitionT_progress pf hnil
        exact ih pf _ (by omega)
      | kwExt =>
        simp only [MainLoopT, hc]
        have := HandleExternT_progress hnil
        exact ih pf _ (by omega)
      | ident n =>
        simp only [MainLoopT, hc]
        rw [if_neg (by simp)]
        have := HandleTopLevelExpressionT_progress pf hnil
        exact ih pf _ (by omega)
      | number v =>
        simp only [MainLoopT, hc]
        rw [if_neg (by simp)]
        have := HandleTopLevelExpressionT_progress pf hnil
        exact ih pf _ (by omega)
      | char c =>
        simp only [MainLoopT, hc]
        by_cases hsc : c = ';'
        · subst hsc
          rw [if_pos rfl]
          have := adv_length_lt hnil
          exact ih pf _ (by omega)
        · rw [if_neg (by simp [hsc])]
          have := HandleTopLevelExpressionT_progress pf hnil
          exact ih pf _ (by omega)

/-! ## Lexer lemmas for the comment-elision property (C7) -/

theorem skipWS_space_eq {a b : Char} (ha : isspace a = true) (hb : isspace b = true)
    (input : List Char) : skipWS (some a) input = skipWS (some b) input := by
  cases input with
  | nil => simp [skipWS, ha, hb]
  | cons d rest => simp [skipWS, ha, hb]

theorem gettokAux_space_eq {a b : Char} (ha : isspace a = true) (hb : isspace b = true)
    (f : Nat) (input : List Char) :
    gettokAux f (some a) input = gettokAux f (some b) input := by
  cases f with
  | zero => rfl
  | succ f =>
    simp only [gettokAux]
    rw [skipWS_space_eq ha hb input]

theorem skipComment_append {body : List Char}
    (h : ∀ c ∈ body, c ≠ '\n' ∧ c ≠ '\r') (rest : List Char) :
    skipComment (body ++ '\n' :: rest) = (some '\n', rest) := by
  induction body with
  | nil => simp [skipComment]
  | cons c bs ih =>
    have hc := h c (List.mem_cons_self c bs)
    have hcond : (c = '\n' || c = '\r') = false := by
      simp [hc.1, hc.2]
    simp only [List.cons_append, skipComment, hcond, if_false, Bool.false_eq_true]
    exact ih (fun d hd => h d (List.mem_cons_of_mem c hd))

/-- A `#` comment (terminated by a newline) vanishes: the next token the
lexer produces after seeing `#` is the first token of the rest of the
line, from the same whitespace-fresh state. -/
theorem skipWS_not_space {c : Char} (h : isspace c = false) (input : List Char) :
    skipWS (some c) input = (some c, input) := by
  cases input <;> simp [skipWS, h]

theorem gettok_comment_skip {body : List Char}
    (h : ∀ c ∈ body, c ≠ '\n' ∧ c ≠ '\r') (rest : List Char) :
    gettok (some ' ') ('#' :: body ++ '\n' :: rest) = gettok (some ' ') rest := by
  have h2 : isspace '#' = false := rfl
  have h3 : isspace ' ' = true := rfl
  have hws : skipWS (some ' ') ('#' :: body ++ '\n' :: rest)
      = (some '#', body ++ '\n' :: rest) := by
    simp only [skipWS, h3, if_true]
    exact skipWS_not_space h2 _
  have ha : isalpha '#' = false := rfl
  have hn : (isdigit '#' || decide ('#' = '.')) = false := rfl
  have step1 : ∀ g, gettokAux (g + 1) (some ' ') ('#' :: body ++ '\n' :: rest)
      = gettokAux g (some '\n') rest := by
    intro g
    simp only [gettokAux, hws, ha, hn, Bool.false_eq_true, if_false, if_true]
    rw [skipComment_append h rest]
  have hlen : rest.length < ('#' :: body ++ '\n' :: rest).length := by
    simp
    omega
  show gettokAux (('#' :: body ++ '\n' :: rest).length + 1) (some ' ')
      ('#' :: body ++ '\n' :: rest) = gettok (some ' ') rest
  rw [step1,
    gettokAux_fuel_irrel _ (rest.length + 1) (some '\n') rest hlen (Nat.lt_succ_self _),
    gettokAux_space_eq (show isspace '\n' = true from rfl) h3]
  rfl

/-- Over a chain of numbers joined by operators that all share one
precedence `p ≥ 0`, the LLVM-backed climber folds strictly left to
right (left-associativity at equal precedence). -/
theorem ParseBinOpRHS_equal_prec_fold :
    ∀ (pairs : List (Char × String)) (p : Int), 0 ≤ p →
    (∀ x ∈ pairs, GetTokPrecedence (.char x.1) = p) →
    ∀ (lhs : Expr) (f : Nat), 2 * pairs.length + 1 ≤ f →
    ParseBinOpRHS f 0 lhs (chainToks pairs)
      = (.ok (pairs.foldl (fun acc x => .bin x.1 acc (.num x.2)) lhs), []) := by
  intro pairs
  induction pairs with
  | nil =>
    intro p hp hall lhs f hf
    cases f with
    | zero => omega
    | succ f =>
      simp only [chainToks, ParseBinOpRHS, List.foldl_nil]
      rw [if_pos (by decide : GetTokPrecedence (cur ([] : List Tok)) < 0)]
  | cons q rest ih =>
    intro p hp hall lhs f hf
    obtain ⟨o, n⟩ := q
    simp only [List.length_cons] at hf
    cases f with
    | zero => omega
    | succ f =>
      have hpo : GetTokPrecedence (.char o) = p := hall (o, n) (by simp)
      simp only [chainToks, ParseBinOpRHS]
      rw [show cur (Tok.char o :: Tok.number n :: chainToks rest) = Tok.char o from rfl,
        hpo, if_neg (by omega : ¬ p < 0)]
      cases f with
      | zero => omega
      | succ f2 =>
        have hprim : ParsePrimary (f2 + 1) (Tok.number n :: chainToks rest)
            = (.ok (.num n), chainToks rest) := rfl
        rw [show adv (Tok.char o :: Tok.number n :: chainToks rest)
            = Tok.number n :: chainToks rest from rfl]
        simp only [hprim]
        have hnn : ¬ p < GetTokPrecedence (cur (chainToks rest)) := by
          cases rest with
          | nil =>
            rw [show chainToks [] = ([] : List Tok) from rfl,
              show GetTokPrecedence (cur ([] : List Tok)) = -1 from rfl]
            omega
          | cons q2 r2 =>
            rw [show cur (chainToks (q2 :: r2)) = Tok.char q2.1 from rfl,
              hall q2 (by simp)]
            omega
        rw [if_neg hnn,
          show tokChar (Tok.char o) = o from rfl]
        rw [ih p hp (fun x hx => hall x (List.mem_cons_of_mem _ hx))
          (.bin o lhs (.num n)) (f2 + 1) (by omega)]
        simp

/-- `NamedValues` after the clear-and-repopulate loop: exactly the
function's parameter names are bound, each to its argument value. -/
theorem functionScope_foldl_lookup (args : List String) (x : String) :
    ∀ acc : List (String × Val),
      (args.foldl (fun nv a => (a, Val.arg a) :: nv) acc).lookup x
        = if x ∈ args then some (Val.arg x) else acc.lookup x := by
  induction args with
  | nil => intro acc; simp
  | cons a as ih =>
    intro acc
    rw [List.foldl_cons, ih]
    by_cases h1 : x ∈ as
    · simp [h1]
    · by_cases h2 : x = a
      · subst h2
        simp [h1, List.lookup]
      · have hb : (x == a) = false := by simp [h2]
        simp [h1, h2, List.lookup, hb]

theorem functionScope_lookup (args : List String) (x : String) :
    (functionScope args).lookup x = if x ∈ args then some (Val.arg x) else none := by
  have := functionScope_foldl_lookup args x []
  simpa [functionScope] using this

theorem MainLoopT_some_eof : ∀ lf pf s s', MainLoopT lf pf s = some s' →
    cur s' = .eof := by
  intro lf
  induction lf with
  | zero => intro pf s s' h; simp [MainLoopT] at h
  | succ lf ih =>
    intro pf s s' h
    simp only [MainLoopT] at h
    split at h
    case _ heq =>
      injection h with h2
      rw [← h2]
      exact heq
    case _ heq => exact ih pf _ s' h
    case _ heq => exact ih pf _ s' h
    case _ =>
      split at h
      · exact ih pf _ s' h
      · exact ih pf _ s' h

/-! ## The claims -/

/-- C1: the LLVM-backed precedence climber (`ParseBinOpRHS` with
`GetTokPrecedence`) produces standard left-to-right,
precedence-respecting grouping: `1+2*3` parses as `1+(2*3)`,
`1*2+3*4` as `(1*2)+(3*4)`, `1-2-3` as `(1-2)-3`; the table is
`<`/`>` = 10, `+`/`-` = 20, `*`/`/` = 40, any other token gets the
below-minimum sentinel `-1` and terminates climbing without being
consumed; chains of equal-precedence operators fold strictly left
(left-associativity). -/
theorem spec_c1 :
    (ParseExpression 20 (lex "1+2*3")
      = (.ok (.bin '+' (.num "1") (.bin '*' (.num "2") (.num "3"))), [])) ∧
    (ParseExpression 20 (lex "1*2+3*4")
      = (.ok (.bin '+' (.bin '*' (.num "1") (.num "2"))
                       (.bin '*' (.num "3") (.num "4"))), [])) ∧
    (ParseExpression 20 (lex "1-2-3")
      = (.ok (.bin '-' (.bin '-' (.num "1") (.num "2")) (.num "3")), [])) ∧
    (GetTokPrecedence (.char '<') = 10 ∧ GetTokPrecedence (.char '>') = 10 ∧
     GetTokPrecedence (.char '+') = 20 ∧ GetTokPrecedence (.char '-') = 20 ∧
     GetTokPrecedence (.char '*') = 40 ∧ GetTokPrecedence (.char '/') = 40) ∧
    (∀ t : Tok, t ∉ [Tok.char '<', Tok.char '>', Tok.char '+', Tok.char '-',
        Tok.char '*', Tok.char '/'] → GetTokPrecedence t = -1) ∧
    (∀ (t : Tok) (s : List Tok) (f : Nat) (lhs : Expr),
       GetTokPrecedence t = -1 →
       ParseBinOpRHS (f + 1) 0 lhs (t :: s) = (.ok lhs, t :: s)) ∧
    (∀ (pairs : List (Char × String)) (p : Int), 0 ≤ p →
       (∀ x ∈ pairs, GetTokPrecedence (.char x.1) = p) →
       ∀ (lhs : Expr) (f : Nat), 2 * pairs.length + 1 ≤ f →
       ParseBinOpRHS f 0 lhs (chainToks pairs)
         = (.ok (pairs.foldl (fun acc x => .bin x.1 acc (.num x.2)) lhs), [])) := by
  refine ⟨rfl, rfl, rfl, ⟨rfl, rfl, rfl, rfl, rfl, rfl⟩, ?_, ?_, ?_⟩
  · intro t ht
    cases t with
    | eof => rfl
    | kwDef => rfl
    | kwExt => rfl
    | ident s => rfl
    | number v => rfl
    | char c =>
      have h1 : ¬(c = '<' ∨ c = '>') := by
        rintro (rfl | rfl) <;> simp at ht
      have h2 : ¬(c = '+' ∨ c = '-') := by
        rintro (rfl | rfl) <;> simp at ht
      have h3 : ¬(c = '*' ∨ c = '/') := by
        rintro (rfl | rfl) <;> simp at ht
      simp only [GetTokPrecedence]
      rw [if_neg h1, if_neg h2, if_neg h3]
  · intro t s f lhs hprec
    simp only [ParseBinOpRHS]
    rw [show cur (t :: s) = t from rfl, hprec,
      if_pos (by omega : (-1 : Int) < 0)]
  · exact ParseBinOpRHS_equal_prec_fold

theorem spec_c1_witness :
    GetTokPrecedence (.ident "x") = -1 ∧
    ParseBinOpRHS 4 0 (.num "7") [Tok.ident "x"] = (.ok (.num "7"), [Tok.ident "x"]) ∧
    ParseBinOpRHS 5 0 (.num "1") (chainToks [('-', "2"), ('-', "3")])
      = (.ok (.bin '-' (.bin '-' (.num "1") (.num "2")) (.num "3")), []) := by
  refine ⟨?_, ?_, ?_⟩
  · exact spec_c1.2.2.2.2.1 (.ident "x") (by decide)
  · exact spec_c1.2.2.2.2.2.1 (.ident "x") [] 3 (.num "7") rfl
  · exact spec_c1.2.2.2.2.2.2 [('-', "2"), ('-', "3")] 20 (by omega)
      (by decide) (.num "1") 5 (by simp)

/-- C2, evaluated at the failing input: a zero-argument call `f()` does
NOT parse in this code — the argument loop of
`ParseIdentifierOrCallExpr` parses a first argument unconditionally, so
`)` is rejected as "Unknown token when expecting an expression" and the
call fails with the "Argument is null" marker; a call missing its
closing `)` fails with the failure marker (no partial Call node is
returned); a one-argument call parses fine. -/
theorem spec_c2_eval :
    ParseExpression 20 (lex "f()") = (.error "Argument is null", [.char ')']) ∧
    ParseExpression 20 (lex "f(1")
      = (.error "Expected \x27)\x27 or \x27,\x27 in argument list", []) ∧
    ParseExpression 20 (lex "f(1)") = (.ok (.call "f" [.num "1"]), []) :=
  ⟨rfl, rfl, rfl⟩

/-- C3, counterexample: consecutive anonymous top-level units do NOT get
unique internal names — every anonymous prototype is named `""`, so two
consecutive ones carry the same name. -/
theorem spec_c3_cex :
    (ParseTopLevelExpr 9 (lex "1")).1.toOption.map (fun fn => fn.proto.name)
      = some "" ∧
    (ParseTopLevelExpr 9 (lex "2")).1.toOption.map (fun fn => fn.proto.name)
      = some "" ∧
    (ParseTopLevelExpr 9 (lex "1")).1.toOption.map (fun fn => fn.proto.name)
      = (ParseTopLevelExpr 9 (lex "2")).1.toOption.map (fun fn => fn.proto.name) :=
  ⟨rfl, rfl, rfl⟩

/-- C3, amended: every successfully parsed anonymous top-level unit
receives the same fixed internal prototype — empty name, no
parameters. -/
theorem spec_c3_amended (f : Nat) (s s1 : List Tok) (fn : FunctionAST)
    (h : ParseTopLevelExpr f s = (.ok fn, s1)) :
    fn.proto = ⟨"", []⟩ := by
  simp only [ParseTopLevelExpr] at h
  rcases h2 : ParseExpression f s with ⟨r, s2⟩
  rw [h2] at h
  cases r with
  | ok e =>
    simp only [Prod.mk.injEq, Except.ok.injEq] at h
    rw [← h.1]
  | error e => simp at h

theorem spec_c3_amended_witness :
    (⟨⟨"", []⟩, Expr.num "1"⟩ : FunctionAST).proto = ⟨"", []⟩ :=
  spec_c3_amended 9 (lex "1") [] ⟨⟨"", []⟩, .num "1"⟩ rfl

/-- C4: lowering a `FunctionDef` whose name exists in the module only as
a body-less declaration succeeds, attaching the lowered body to that
declaration; lowering one whose name already has a completed body fails
with the redefinition error, leaving module and scope untouched. -/
theorem spec_c4 :
    (∀ (m : Module) (fn : FunctionAST) (fIR : FuncIR)
        (nv0 : List (String × Val)) (v : Val),
       getFunction m fn.proto.name = some fIR →
       fIR.body = none →
       codegenExpr m (functionScope fIR.args) fn.body = .ok v →
       functionCodegen m nv0 fn
         = (.ok ⟨fIR.args, some v⟩,
            moduleSet m fn.proto.name ⟨fIR.args, some v⟩,
            functionScope fIR.args)) ∧
    (∀ (m : Module) (fn : FunctionAST) (fIR : FuncIR)
        (nv0 : List (String × Val)) (v0 : Val),
       getFunction m fn.proto.name = some fIR →
       fIR.body = some v0 →
       functionCodegen m nv0 fn = (.error "Function cannot be redefined", m, nv0)) := by
  constructor
  · intro m fn fIR nv0 v hg hb hc
    simp [functionCodegen, hg, hb, hc]
  · intro m fn fIR nv0 v0 hg hb
    simp [functionCodegen, hg, hb]

theorem spec_c4_witness :
    functionCodegen [("foo", ⟨["a", "b"], none⟩)] []
        ⟨⟨"foo", ["a", "b"]⟩, .bin '+' (.var "a") (.var "b")⟩
      = (.ok ⟨["a", "b"], some (.fadd (.arg "a") (.arg "b"))⟩,
         moduleSet [("foo", ⟨["a", "b"], none⟩)] "foo"
           ⟨["a", "b"], some (.fadd (.arg "a") (.arg "b"))⟩,
         functionScope ["a", "b"]) ∧
    functionCodegen [("foo", ⟨["a"], some (.constFP "1")⟩)] []
        ⟨⟨"foo", ["a"]⟩, .var "a"⟩
      = (.error "Function cannot be redefined",
         [("foo", ⟨["a"], some (.constFP "1")⟩)], []) := by
  constructor
  · exact spec_c4.1 _ _ ⟨["a", "b"], none⟩ [] (.fadd (.arg "a") (.arg "b")) rfl rfl rfl
  · exact spec_c4.2 _ _ ⟨["a"], some (.constFP "1")⟩ [] (.constFP "1") rfl rfl

/-- C5: an identifier not followed by `(` always parses to a
`VariableRef`, with no scope consulted; the unknown-variable error is
raised only by lowering, exactly when the name is absent from the
current scope (and lowering returns the bound value when present). -/
theorem spec_c5 :
    (∀ (f : Nat) (name : String) (t0 : Tok) (rest : List Tok),
       cur rest ≠ .char '(' →
       ParseIdentifierOrCallExpr (f + 1) name (t0 :: rest)
         = (.ok (.var name), rest)) ∧
    (∀ (f : Nat) (name : String) (rest : List Tok),
       cur rest ≠ .char '(' →
       ParsePrimary (f + 2) (.ident name :: rest) = (.ok (.var name), rest)) ∧
    (∀ (m : Module) (nv : List (String × Val)) (name : String),
       nv.lookup name = none →
       codegenExpr m nv (.var name) = .error "Unknown variable name") ∧
    (∀ (m : Module) (nv : List (String × Val)) (name : String) (v : Val),
       nv.lookup name = some v →
       codegenExpr m nv (.var name) = .ok v) := by
  refine ⟨?_, ?_, ?_, ?_⟩
  · intro f name t0 rest h
    simp only [ParseIdentifierOrCallExpr]
    rw [show adv (t0 :: rest) = rest from rfl, if_neg h]
  · intro f name rest h
    show ParseIdentifierOrCallExpr (f + 1) name (.ident name :: rest) = _
    simp only [ParseIdentifierOrCallExpr]
    rw [show adv (Tok.ident name :: rest) = rest from rfl, if_neg h]
  · intro m nv name h
    simp only [codegenExpr, h]
  · intro m nv name v h
    simp only [codegenExpr, h]

theorem spec_c5_witness :
    ParseIdentifierOrCallExpr 5 "x" [Tok.ident "x", Tok.char '+']
      = (.ok (.var "x"), [Tok.char '+']) ∧
    codegenExpr [] [] (.var "x") = .error "Unknown variable name" ∧
    codegenExpr [] [("x", .arg "x")] (.var "x") = .ok (.arg "x") := by
  refine ⟨?_, ?_, ?_⟩
  · exact spec_c5.1 4 "x" (.ident "x") [.char '+'] (by decide)
  · exact spec_c5.2.2.1 [] [] "x" rfl
  · exact spec_c5.2.2.2 [] [("x", .arg "x")] "x" (.arg "x") rfl

/-- C6: when a top-level unit fails to parse, each handler discards
exactly one token (the current lookahead after the failed parse) and
control returns to the loop; the loop always reaches its normal
end-of-input exit on every input (malformed units never terminate the
session), and it only ever terminates with the cursor at the eof
token. -/
theorem spec_c6 :
    (∀ (pf : Nat) (s : List Tok) (e : String) (s1 : List Tok),
       ParseDefinition pf s = (.error e, s1) → HandleDefinitionT pf s = adv s1) ∧
    (∀ (s : List Tok) (e : String) (s1 : List Tok),
       ParseExternProto s = (.error e, s1) → HandleExternT s = adv s1) ∧
    (∀ (pf : Nat) (s : List Tok) (e : String) (s1 : List Tok),
       ParseTopLevelExpr pf s = (.error e, s1) →
       HandleTopLevelExpressionT pf s = adv s1) ∧
    (∀ (pf : Nat) (s : List Tok),
       ∃ s', MainLoopT (s.length + 1) pf s = some s' ∧ cur s' = .eof) ∧
    (∀ (lf pf : Nat) (s s' : List Tok),
       MainLoopT lf pf s = some s' → cur s' = .eof) := by
  refine ⟨?_, ?_, ?_, ?_, MainLoopT_some_eof⟩
  · intro pf s e s1 h
    simp [HandleDefinitionT, h]
  · intro s e s1 h
    simp [HandleExternT, h]
  · intro pf s e s1 h
    simp [HandleTopLevelExpressionT, h]
  · intro pf s
    exact MainLoopT_reaches_eof (s.length + 1) pf s (Nat.lt_succ_self _)

theorem spec_c6_witness :
    HandleDefinitionT 9 [Tok.kwDef, Tok.number "1"] = adv [Tok.number "1"] ∧
    (∃ s', MainLoopT 3 9 [Tok.kwDef, Tok.number "1"] = some s'
       ∧ cur s' = Tok.eof) := by
  constructor
  · exact spec_c6.1 9 [Tok.kwDef, Tok.number "1"]
      "Expected function name in prototyp" [Tok.number "1"] rfl
  · exact spec_c6.2.2.2.1 9 [Tok.kwDef, Tok.number "1"]

/-- C7: a `#` comment line followed by a newline and then `1+1`
tokenizes exactly as `1+1` alone — the comment produces no token and
its terminating newline is elided too (it is consumed as leading
whitespace of the next token, identically to the fresh lexer state). -/
theorem spec_c7 :
    (∀ (body rest : List Char) (fl : Nat),
       (∀ c ∈ body, c ≠ '\n' ∧ c ≠ '\r') →
       tokensF fl (some ' ') ('#' :: body ++ '\n' :: rest)
         = tokensF fl (some ' ') rest) ∧
    lex "# comment\n1+1" = lex "1+1" := by
  constructor
  · intro body rest fl h
    cases fl with
    | zero => rfl
    | succ fl => simp only [tokensF, gettok_comment_skip h rest]
  · rfl

theorem spec_c7_witness :
    tokensF 9 (some ' ')
        ('#' :: (' ' :: 'c' :: []) ++ '\n' :: ('1' :: '+' :: '1' :: []))
      = tokensF 9 (some ' ') ('1' :: '+' :: '1' :: []) :=
  spec_c7.1 (' ' :: 'c' :: []) ('1' :: '+' :: '1' :: []) 9 (by decide)

/-- C8: at the start of lowering a function body the variable scope is
cleared and repopulated with exactly the function's parameters: the
result and module produced by `FunctionAST::codegen` are independent of
whatever `NamedValues` held before, and the scope the body is lowered
under binds a name iff it is one of the function's parameter names. -/
theorem spec_c8 :
    (∀ (m : Module) (nv0 nv0' : List (String × Val)) (fn : FunctionAST),
       (functionCodegen m nv0 fn).1 = (functionCodegen m nv0' fn).1 ∧
       (functionCodegen m nv0 fn).2.1 = (functionCodegen m nv0' fn).2.1) ∧
    (∀ (args : List String) (x : String),
       (x ∈ args → (functionScope args).lookup x = some (.arg x)) ∧
       (x ∉ args → (functionScope args).lookup x = none)) := by
  constructor
  · intro m nv0 nv0' fn
    simp only [functionCodegen]
    by_cases hb : ((match getFunction m fn.proto.name with
        | some f => (f, m)
        | none => protoCodegen m fn.proto).1.body).isSome = true
    · simp only [hb, if_true]
      exact ⟨trivial, trivial⟩
    · rw [Bool.not_eq_true] at hb
      simp only [hb, Bool.false_eq_true, if_false]
      exact ⟨trivial, trivial⟩
  · intro args x
    constructor
    · intro h
      simp [functionScope_lookup, h]
    · intro h
      simp [functionScope_lookup, h]

theorem spec_c8_witness :
    (functionScope ["a", "b"]).lookup "a" = some (.arg "a") ∧
    (functionScope ["a", "b"]).lookup "z" = none ∧
    (functionCodegen [] [("old", .arg "old")] ⟨⟨"g", ["a"]⟩, .var "a"⟩).1
      = (functionCodegen [] [] ⟨⟨"g", ["a"]⟩, .var "a"⟩).1 := by
  refine ⟨?_, ?_, ?_⟩
  · exact (spec_c8.2 ["a", "b"] "a").1 (by simp)
  · exact (spec_c8.2 ["a", "b"] "z").2 (by simp)
  · exact (spec_c8.1 [] [("old", .arg "old")] [] ⟨⟨"g", ["a"]⟩, .var "a"⟩).1

/-- C9: `>` and `/` are accepted by the parser as binary operators
(precedences 10 and 40, so `1>2` and `6/3` parse into BinaryOp nodes),
but lowering a BinaryOp with operator `>` or `/` always fails — with
the invalid-binary-operator error once both children lower — while
`+`, `-`, `*`, `<` lower successfully when their children do. -/
theorem spec_c9 :
    GetTokPrecedence (.char '>') = 10 ∧
    GetTokPrecedence (.char '/') = 40 ∧
    ParseExpression 20 (lex "1>2")
      = (.ok (.bin '>' (.num "1") (.num "2")), []) ∧
    ParseExpression 20 (lex "6/3")
      = (.ok (.bin '/' (.num "6") (.num "3")), []) ∧
    (∀ (m : Module) (nv : List (String × Val)) (l r : Expr),
       ∃ e, codegenExpr m nv (.bin '>' l r) = .error e) ∧
    (∀ (m : Module) (nv : List (String × Val)) (l r : Expr),
       ∃ e, codegenExpr m nv (.bin '/' l r) = .error e) ∧
    (∀ (m : Module) (nv : List (String × Val)) (l r : Expr) (lv rv : Val),
       codegenExpr m nv l = .ok lv → codegenExpr m nv r = .ok rv →
       codegenExpr m nv (.bin '>' l r) = .error "invalid binary operator" ∧
       codegenExpr m nv (.bin '/' l r) = .error "invalid binary operator" ∧
       codegenExpr m nv (.bin '+' l r) = .ok (.fadd lv rv) ∧
       codegenExpr m nv (.bin '-' l r) = .ok (.fsub lv rv) ∧
       codegenExpr m nv (.bin '*' l r) = .ok (.fmul lv rv) ∧
       codegenExpr m nv (.bin '<' l r) = .ok (.cmplt lv rv)) := by
  refine ⟨rfl, rfl, rfl, rfl, ?_, ?_, ?_⟩
  · intro m nv l r
    cases hl : codegenExpr m nv l with
    | error e => exact ⟨e, by simp [codegenExpr, hl]⟩
    | ok lv =>
      cases hr : codegenExpr m nv r with
      | error e => exact ⟨e, by simp [codegenExpr, hl, hr]⟩
      | ok rv => exact ⟨"invalid binary operator", by simp [codegenExpr, hl, hr]⟩
  · intro m nv l r
    cases hl : codegenExpr m nv l with
    | error e => exact ⟨e, by simp [codegenExpr, hl]⟩
    | ok lv =>
      cases hr : codegenExpr m nv r with
      | error e => exact ⟨e, by simp [codegenExpr, hl, hr]⟩
      | ok rv => exact ⟨"invalid binary operator", by simp [codegenExpr, hl, hr]⟩
  · intro m nv l r lv rv hl hr
    refine ⟨?_, ?_, ?_, ?_, ?_, ?_⟩ <;> simp [codegenExpr, hl, hr]

theorem spec_c9_witness :
    codegenExpr [] [] (.bin '>' (.num "1") (.num "2"))
      = .error "invalid binary operator" ∧
    codegenExpr [] [] (.bin '+' (.num "1") (.num "2"))
      = .ok (.fadd (.constFP "1") (.constFP "2")) := by
  constructor
  · exact (spec_c9.2.2.2.2.2.2 [] [] (.num "1") (.num "2")
      (.constFP "1") (.constFP "2") rfl rfl).1
  · exact (spec_c9.2.2.2.2.2.2 [] [] (.num "1") (.num "2")
      (.constFP "1") (.constFP "2") rfl rfl).2.2.1

/-- C10, evaluated at the failing input: with left-hand operand `1`,
stream `+ 2 * 3` and minimum precedence 0, the LLVM-backed climber
returns `1+(2*3)` while the parse-only climber — whose fold sits in the
`else` of the climb test — discards the climbed right-hand side and
returns just `1`: the two `ParseBinOpRHS` implementations are not
equivalent. -/
theorem spec_c10_eval :
    ParseBinOpRHS 9 0 (.num "1")
        [.char '+', .number "2", .char '*', .number "3"]
      = (.ok (.bin '+' (.num "1") (.bin '*' (.num "2") (.num "3"))), []) ∧
    ParseBinOpRHS2 9 0 (.num "1")
        [.char '+', .number "2", .char '*', .number "3"]
      = (.ok (.num "1"), []) ∧
    ParseBinOpRHS 9 0 (.num "1")
        [.char '+', .number "2", .char '*', .number "3"]
      ≠ ParseBinOpRHS2 9 0 (.num "1")
        [.char '+', .number "2", .char '*', .number "3"] := by
  refine ⟨rfl, rfl, fun h => ?_⟩
  rw [show ParseBinOpRHS 9 0 (.num "1")
        [.char '+', .number "2", .char '*', .number "3"]
      = ((.ok (.bin '+' (.num "1") (.bin '*' (.num "2") (.num "3")))
          : Except String Expr), ([] : List Tok)) from rfl,
    show ParseBinOpRHS2 9 0 (.num "1")
        [.char '+', .number "2", .char '*', .number "3"]
      = ((.ok (.num "1") : Except String Expr), ([] : List Tok)) from rfl] at h
  simp at h

end MyLang
